import Mathlib

/-!
Verification of the rustpad server core against its specification.

The repository sources under consideration are the rustpad server
(`rustpad-server/src/lib.rs`, `auth.rs`, `freeze.rs`).  The operational
transformation module (`ot.rs`) and the per-document engine (`rustpad.rs`)
are declared in `lib.rs` but their sources are not part of the snapshot, so
those parts are modelled from the specification text (sections 3, 4.A, 4.B,
4.C).  Everything else is translated directly from the Rust sources.

Strings are modelled as lists of Unicode scalar values (`List Char`) where
the specification speaks of scalar counts, and as Lean `String` elsewhere.
Machine integers (`u32`, `u64`, `usize`) stay far below their bounds in all
code paths involved here, so they are modelled as `Nat`.
-/

namespace Ot

/-- Modelled from the spec: an Operation primitive (section 3) is one of
`Retain(n)`, `Insert(s)`, `Delete(n)`.  The module `ot.rs` is not in `src/`,
so this follows the specification's data model. -/
inductive PrimOp where
  | retain (n : Nat)
  | insert (s : List Char)
  | delete (n : Nat)
deriving Repr, DecidableEq

/-- Modelled from the spec: an Operation is an ordered sequence of
primitives (section 3). -/
abbrev Operation := List PrimOp

/-- Modelled from the spec: `base_len` is the sum of Retain and Delete
lengths (section 3). -/
def baseLen : Operation → Nat
  | [] => 0
  | .retain n :: rest => n + baseLen rest
  | .insert _ :: rest => baseLen rest
  | .delete n :: rest => n + baseLen rest

/-- Modelled from the spec: `target_len` is the sum of Retain and Insert
lengths (section 3). -/
def targetLen : Operation → Nat
  | [] => 0
  | .retain n :: rest => n + targetLen rest
  | .insert s :: rest => s.length + targetLen rest
  | .delete _ :: rest => targetLen rest

/-- Modelled from the spec: canonical operations contain no empty
primitives (section 3: `n ≥ 1` for Retain and Delete, `|s| ≥ 1` for
Insert). -/
def wf : Operation → Bool
  | [] => true
  | .retain n :: rest => (n != 0) && wf rest
  | .insert s :: rest => (s.length != 0) && wf rest
  | .delete n :: rest => (n != 0) && wf rest

/-- Modelled from the spec: `apply(op, s)` walks `s` and `op` in parallel
(section 4.B): Retain copies `n` scalars, Insert emits its string, Delete
skips `n` scalars.  It is defined iff `|s| = op.base_len`; failure is
`none`. -/
def applyOp : Operation → List Char → Option (List Char)
  | [], [] => some []
  | [], _ :: _ => none
  | .retain n :: rest, s =>
      if n ≤ s.length then (applyOp rest (s.drop n)).map (s.take n ++ ·) else none
  | .insert ins :: rest, s => (applyOp rest s).map (ins ++ ·)
  | .delete n :: rest, s =>
      if n ≤ s.length then applyOp rest (s.drop n) else none

/-- Size measure used to show `transform` terminates: each primitive counts
one plus its length. -/
def primSize : PrimOp → Nat
  | .retain n => n + 1
  | .insert s => s.length + 1
  | .delete n => n + 1

/-- Total size of an operation, for the `transform` termination measure. -/
def opSize : Operation → Nat
  | [] => 0
  | p :: rest => primSize p + opSize rest

/-- Modelled from the spec: `transform(a, b)` for operations with equal
`base_len` (section 4.B).  The two operations are walked with a common
cursor, splitting the longer head primitive when the heads have different
lengths.  The tie-break rule is the one stated in the spec: when both
operations insert at the same position, operation `a`'s insertion is placed
first (`a'` keeps the insertion, `b'` retains past it). -/
def transform : Operation → Operation → Option (Operation × Operation)
  | [], [] => some ([], [])
  | .insert s :: as, bs =>
      (transform as bs).map fun p => (.insert s :: p.1, .retain s.length :: p.2)
  | as, .insert s :: bs =>
      (transform as bs).map fun p => (.retain s.length :: p.1, .insert s :: p.2)
  | .retain i :: as, .retain j :: bs =>
      if i < j then
        (transform as (.retain (j - i) :: bs)).map fun p =>
          (.retain i :: p.1, .retain i :: p.2)
      else if j < i then
        (transform (.retain (i - j) :: as) bs).map fun p =>
          (.retain j :: p.1, .retain j :: p.2)
      else
        (transform as bs).map fun p => (.retain i :: p.1, .retain i :: p.2)
  | .delete i :: as, .delete j :: bs =>
      if i < j then transform as (.delete (j - i) :: bs)
      else if j < i then transform (.delete (i - j) :: as) bs
      else transform as bs
  | .delete i :: as, .retain j :: bs =>
      if i < j then
        (transform as (.retain (j - i) :: bs)).map fun p =>
          (.delete i :: p.1, p.2)
      else if j < i then
        (transform (.delete (i - j) :: as) bs).map fun p =>
          (.delete j :: p.1, p.2)
      else
        (transform as bs).map fun p => (.delete i :: p.1, p.2)
  | .retain i :: as, .delete j :: bs =>
      if i < j then
        (transform as (.delete (j - i) :: bs)).map fun p =>
          (p.1, .delete i :: p.2)
      else if j < i then
        (transform (.retain (i - j) :: as) bs).map fun p =>
          (p.1, .delete j :: p.2)
      else
        (transform as bs).map fun p => (p.1, .delete i :: p.2)
  | _ :: _, [] => none
  | [], _ :: _ => none
termination_by a b => opSize a + opSize b
decreasing_by all_goals (simp_all [opSize, primSize] <;> omega)

end Ot

/-- UTF-8 byte size of one Unicode scalar value, following Rust
`char::len_utf8`. -/
def charUtf8Size (c : Char) : Nat :=
  if c.toNat < 0x80 then 1
  else if c.toNat < 0x800 then 2
  else if c.toNat < 0x10000 then 3
  else 4

/-- UTF-8 byte length of a string, following Rust `str::len` (equivalently
`str::as_bytes().len()`). -/
def utf8ByteLength (s : String) : Nat := (s.data.map charUtf8Size).sum

namespace Auth

/-- User account information (auth.rs, `User`). -/
structure User where
  username : String
  password_hash : String
  created_at : String
deriving Repr, DecidableEq

/-- State of the `AuthManager` (auth.rs): the `enabled` flag of
`AuthConfig`, the in-memory `users_cache`, and the user files on disk
(`data_dir/{username}.json`), both modelled as association lists from
username to the stored `User`. -/
structure AuthState where
  enabled : Bool
  users_cache : List (String × User)
  user_files : List (String × User)
deriving Repr, DecidableEq

/-- auth.rs `AuthManager::user_exists`: the cache is consulted first, then
the filesystem. -/
def user_exists (st : AuthState) (username : String) : Bool :=
  (st.users_cache.find? (fun e => e.1 == username)).isSome ||
  (st.user_files.find? (fun e => e.1 == username)).isSome

/-- auth.rs `AuthManager::register` (lines 73-116) as a pure state
transition.  Three externals are passed in as parameters rather than
re-implemented: `is_alphanumeric` stands for Rust's Unicode-wide
`char::is_alphanumeric` (its Unicode tables are outside the model, so
results about `register` hold for every choice of this predicate, and
concrete instantiations below consult it only at ASCII characters, where
any standard instantiation agrees with Rust); `hashFn` stands for
`bcrypt::hash` (which returns a `Result` in Rust); `now` stands for
`chrono::Utc::now().to_rfc3339()`.  Rust `str::len` is the UTF-8 byte
length, hence `utf8ByteLength`.  Every `bail!` happens before the user
file is written or the cache touched, so those branches return the state
unchanged. -/
def register (st : AuthState) (username password : String)
    (is_alphanumeric : Char → Bool)
    (hashFn : String → Except String String) (now : String) :
    Except String User × AuthState :=
  if !st.enabled then (.error "Authentication feature is not enabled", st)
  else if username.isEmpty || utf8ByteLength username < 3 then
    (.error "Username must be at least 3 characters", st)
  else if !(username.data.all fun c => is_alphanumeric c || c == '_' || c == '-') then
    (.error "Username can only contain letters, numbers, underscores, and hyphens", st)
  else if utf8ByteLength password < 6 then
    (.error "Password must be at least 6 characters", st)
  else if user_exists st username then
    (.error "Username already exists", st)
  else
    match hashFn password with
    | .error e => (.error e, st)
    | .ok password_hash =>
      let user : User := ⟨username, password_hash, now⟩
      (.ok user,
       { st with
          user_files := (username, user) :: st.user_files,
          users_cache := (username, user) :: st.users_cache })

end Auth

namespace Freeze

/-- freeze.rs `FrozenDocument`.  `DateTime<Utc>` values are modelled as
seconds since the Unix epoch (as `Int`), and `PathBuf` as the path
string. -/
structure FrozenDocument where
  document_id : String
  owner_token : String
  language : String
  file_extension : String
  frozen_at : Int
  expires_at : Int
  file_path : String
  file_size : Nat
deriving Repr, DecidableEq

/-- freeze.rs `FreezeConfig`. -/
structure FreezeConfig where
  enabled : Bool
  save_dir : String
  max_file_size : Nat
deriving Repr, DecidableEq

/-- State of the `FreezeManager` (freeze.rs): its configuration, the
written files (path to contents), the per-owner `metadata.json` contents,
and the in-memory metadata cache. -/
structure FreezeState where
  config : FreezeConfig
  files : List (String × String)
  metadata_files : List (String × List FrozenDocument)
  metadata_cache : List (String × List FrozenDocument)
deriving Repr, DecidableEq

/-- freeze.rs `FreezeManager::get_extension` (lines 102-127). -/
def get_extension : String → String
  | "rust" => "rs"
  | "python" => "py"
  | "javascript" => "js"
  | "typescript" => "ts"
  | "java" => "java"
  | "cpp" => "cpp"
  | "c++" => "cpp"
  | "c" => "c"
  | "go" => "go"
  | "ruby" => "rb"
  | "php" => "php"
  | "swift" => "swift"
  | "kotlin" => "kt"
  | "scala" => "scala"
  | "html" => "html"
  | "css" => "css"
  | "json" => "json"
  | "xml" => "xml"
  | "yaml" => "yaml"
  | "yml" => "yaml"
  | "markdown" => "md"
  | "sql" => "sql"
  | "bash" => "sh"
  | "shell" => "sh"
  | _ => "txt"

/-- Seconds in `chrono::Duration::days(n)`. -/
def days (n : Int) : Int := n * 86400

/-- Association-list upsert, standing for a keyed overwrite such as
`fs::write` to an existing path or `HashMap::insert`. -/
def upsert {α : Type} (l : List (String × α)) (k : String) (v : α) :
    List (String × α) :=
  if (l.find? (fun e => e.1 == k)).isSome then
    l.map (fun e => if e.1 == k then (k, v) else e)
  else l ++ [(k, v)]

/-- freeze.rs `FreezeManager::save_metadata` (lines 313-344): load the
owner's metadata list (empty when the file is missing), replace the entry
with the same `document_id` or append the new one, and write the list
back. -/
def save_metadata (st : FreezeState) (doc : FrozenDocument) : FreezeState :=
  let owner := doc.owner_token
  let old := ((st.metadata_files.find? (fun e => e.1 == owner)).map Prod.snd).getD []
  let updated :=
    if (old.find? (fun d => d.document_id == doc.document_id)).isSome then
      old.map (fun d => if d.document_id == doc.document_id then doc else d)
    else old ++ [doc]
  { st with metadata_files := upsert st.metadata_files owner updated }

/-- freeze.rs `FreezeManager::freeze_document` (lines 130-193) as a pure
state transition; `now` stands for `Utc::now()` in epoch seconds. -/
def freeze_document (st : FreezeState)
    (document_id username language content : String) (now : Int) :
    Except String FrozenDocument × FreezeState :=
  if !st.config.enabled then (.error "File freeze feature is not enabled", st)
  else if utf8ByteLength content > st.config.max_file_size then
    (.error "Document size exceeds maximum", st)
  else
    let file_extension := get_extension language
    let filename := document_id ++ "." ++ file_extension
    let owner_dir := st.config.save_dir ++ "/frozen/" ++ username
    let file_path := owner_dir ++ "/" ++ filename
    let st₁ := { st with files := upsert st.files file_path content }
    let frozen_at := now
    let expires_at := frozen_at + days 30
    let doc : FrozenDocument :=
      { document_id := document_id
        owner_token := username
        language := language
        file_extension := file_extension
        frozen_at := frozen_at
        expires_at := expires_at
        file_path := file_path
        file_size := utf8ByteLength content }
    let st₂ := save_metadata st₁ doc
    let cached := ((st₂.metadata_cache.find? (fun e => e.1 == username)).map Prod.snd).getD []
    let st₃ := { st₂ with metadata_cache := upsert st₂.metadata_cache username (cached ++ [doc]) }
    (.ok doc, st₃)

end Freeze

namespace Server

/-- Modelled from the spec: the persisted document snapshot exchanged with
the SnapshotStore (sections 3 and 6.3); `database.rs` is not in `src/`. -/
structure PersistedDocument where
  text : String
  language : Option String
deriving Repr, DecidableEq

/-- Modelled from the spec: the observable state of a per-document engine
(section 4.C); `rustpad.rs` is not in `src/`.  It carries the current text,
the language tag, the revision counter, and the one-way killed flag. -/
structure Rustpad where
  text : String
  language : Option String
  revision : Nat
  killed : Bool
deriving Repr, DecidableEq

/-- Modelled from the spec: `Rustpad::default()`, the empty document. -/
def Rustpad.init : Rustpad :=
  { text := "", language := none, revision := 0, killed := false }

/-- Modelled from the spec: `Rustpad::from(document)` seeds a fresh engine
from a persisted snapshot (section 6.3: created engines are optionally
seeded from the snapshot loader); the restoring edit gives revision 1. -/
def Rustpad.fromPersisted (d : PersistedDocument) : Rustpad :=
  { text := d.text, language := d.language, revision := 1, killed := false }

/-- Modelled from the spec: `kill()` sets the one-way killed flag
(section 4.C). -/
def Rustpad.kill (r : Rustpad) : Rustpad := { r with killed := true }

/-- lib.rs `Document` (lines 31-34): one entry of the global map. -/
structure Document where
  last_accessed : Nat
  rustpad : Rustpad
deriving Repr, DecidableEq

/-- lib.rs `impl Drop for Document` (lines 45-49): dropping an entry kills
its engine.  The value is the engine state after the drop glue ran. -/
def Document.dropped (d : Document) : Rustpad := d.rustpad.kill

/-- The database handle as used by the handlers in lib.rs: `load` and
`count` (`database.rs` is not in `src/`; this is the SnapshotStore
interface of spec section 6.3). -/
structure Database where
  load : String → Option PersistedDocument
  count : Except String Nat

/-- lib.rs `ServerState` (lines 59-72), restricted to the fields the
claims touch: the document map and the optional database. -/
structure ServerState where
  documents : List (String × Document)
  database : Option Database

/-- lib.rs `Stats` (lines 76-83). -/
structure Stats where
  start_time : Nat
  num_documents : Nat
  database_size : Nat
deriving Repr, DecidableEq

/-- Association-list lookup, standing for `DashMap` key probing
(`DashMap::get`, `DashMap::entry`). -/
def find_document (docs : List (String × Document)) (id : String) :
    Option Document :=
  (docs.find? (fun e => e.1 == id)).map Prod.snd

/-- Result of `socket_handler`: the engine handle captured for the
connection, the document map afterwards, and whether a persister task was
spawned. -/
structure SocketResult where
  handle : Rustpad
  documents : List (String × Document)
  persister_spawned : Bool
deriving Repr, DecidableEq

/-- lib.rs `socket_handler` (lines 297-318) as a state transition on the
document map; `now` stands for `Instant::now()`.  The occupied branch of
the `entry` upsert refreshes `last_accessed` and reuses the stored engine;
the vacant branch creates an engine (seeded from `db.load` when a database
is configured, `Rustpad::default()` otherwise), inserts it, and spawns the
per-document persister iff a database is configured. -/
def socket_handler (st : ServerState) (id : String) (now : Nat) :
    SocketResult :=
  match find_document st.documents id with
  | some doc =>
      { handle := doc.rustpad
        documents := st.documents.map (fun e =>
          if e.1 == id then (e.1, { last_accessed := now, rustpad := doc.rustpad }) else e)
        persister_spawned := false }
  | none =>
      let rustpad : Rustpad :=
        match st.database with
        | some db =>
          match db.load id with
          | some d => Rustpad.fromPersisted d
          | none => Rustpad.init
        | none => Rustpad.init
      { handle := rustpad
        documents := st.documents ++ [(id, { last_accessed := now, rustpad := rustpad })]
        persister_spawned := st.database.isSome }

/-- lib.rs `text_handler` (lines 321-335). -/
def text_handler (st : ServerState) (id : String) : Except String String :=
  .ok (match find_document st.documents id with
    | some doc => doc.rustpad.text
    | none =>
      match st.database with
      | some db => ((db.load id).map (fun d => d.text)).getD ""
      | none => "")

/-- The `GET /text/id` result as the specification words it, for
comparison with `text_handler`: the engine's current text when an entry
exists in the registry, otherwise the persisted snapshot's text when
persistence is enabled and a snapshot exists, otherwise the empty
string. -/
def text_spec (st : ServerState) (id : String) : String :=
  match find_document st.documents id with
  | some doc => doc.rustpad.text
  | none =>
    match st.database with
    | some db =>
      match db.load id with
      | some d => d.text
      | none => ""
    | none => ""

/-- lib.rs `stats_handler` (lines 338-352). -/
def stats_handler (start_time : Nat) (st : ServerState) : Except String Stats :=
  match st.database with
  | none =>
    .ok { start_time := start_time
          num_documents := st.documents.length
          database_size := 0 }
  | some db =>
    match db.count with
    | .ok size =>
      .ok { start_time := start_time
            num_documents := st.documents.length
            database_size := size }
    | .error e => .error e

/-- lib.rs `HOUR`, in seconds. -/
def HOUR : Nat := 3600

/-- `DashMap::remove` combined with `Document`'s `Drop` impl: the entries
carrying the removed key leave the map and their engines are killed by the
drop glue.  Returns the map afterwards and the killed engines. -/
def remove_document (docs : List (String × Document)) (key : String) :
    List (String × Document) × List Rustpad :=
  (docs.filter (fun e => e.1 != key),
   (docs.filter (fun e => e.1 == key)).map (fun e => e.2.dropped))

/-- One removal step of the cleaner's second phase. -/
def remove_fold (acc : List (String × Document) × List Rustpad)
    (k : String) : List (String × Document) × List Rustpad :=
  let r := remove_document acc.1 k
  (r.1, acc.2 ++ r.2)

/-- lib.rs `cleaner` (lines 357-371), one tick of the hourly loop: collect
the keys whose `last_accessed` lies more than `HOUR * 24 * expiry_days` in
the past at scan time, then remove them one by one.  Returns the document
map afterwards together with the engines killed by the removals. -/
def cleaner_tick (docs : List (String × Document)) (now expiry_days : Nat) :
    List (String × Document) × List Rustpad :=
  let keys := (docs.filter
    (fun e => now - e.2.last_accessed > HOUR * 24 * expiry_days)).map (fun e => e.1)
  keys.foldl remove_fold (docs, [])

/-- One sampled iteration of the lib.rs `persister` loop (lines 377-393):
the revision read by `rustpad.revision()`, and the outcome of `db.store`
for the case a store is attempted. -/
structure PersistSample where
  revision : Nat
  store_result : Except String Unit
deriving Repr

/-- Effects of one `persister` loop iteration.  The loop body only samples
the revision, possibly calls `db.store`, and possibly logs through
`error!`; it holds no session or broadcast handle, so the only
client-facing channel, `client_messages`, is empty in every branch. -/
structure PersisterOutcome where
  last_revision : Nat
  store_attempted : Bool
  logged_errors : List String
  client_messages : List String
deriving Repr, DecidableEq

/-- lib.rs `persister` loop body (lines 379-392) as a function of the
current `last_revision` marker and the sampled data. -/
def persister_step (last_revision : Nat) (s : PersistSample) :
    PersisterOutcome :=
  if s.revision > last_revision then
    match s.store_result with
    | .ok _ =>
      { last_revision := s.revision, store_attempted := true
        logged_errors := [], client_messages := [] }
    | .error e =>
      { last_revision := last_revision, store_attempted := true
        logged_errors := [e], client_messages := [] }
  else
    { last_revision := last_revision, store_attempted := false
      logged_errors := [], client_messages := [] }

/-- The `last_revision` marker after a sequence of persister loop
iterations. -/
def persister_run (last_revision : Nat) (samples : List PersistSample) :
    Nat :=
  samples.foldl (fun l s => (persister_step l s).last_revision) last_revision

end Server

namespace Ot

theorem applyOp_retain_cons (n : Nat) (rest : Operation) (s : List Char)
    (h : n ≤ s.length) :
    applyOp (.retain n :: rest) s = (applyOp rest (s.drop n)).map (s.take n ++ ·) := by
  simp [applyOp, h]

theorem applyOp_delete_cons (n : Nat) (rest : Operation) (s : List Char)
    (h : n ≤ s.length) :
    applyOp (.delete n :: rest) s = applyOp rest (s.drop n) := by
  simp [applyOp, h]

theorem applyOp_insert_cons (t : List Char) (rest : Operation) (s : List Char) :
    applyOp (.insert t :: rest) s = (applyOp rest s).map (t ++ ·) := rfl

theorem applyOp_retain_append (n : Nat) (rest : Operation) (l r : List Char)
    (h : l.length = n) :
    applyOp (.retain n :: rest) (l ++ r) = (applyOp rest r).map (l ++ ·) := by
  have hn : n ≤ (l ++ r).length := by simp [List.length_append]; omega
  rw [applyOp_retain_cons _ _ _ hn, List.take_left' h, List.drop_left' h]

theorem applyOp_delete_append (n : Nat) (rest : Operation) (l r : List Char)
    (h : l.length = n) :
    applyOp (.delete n :: rest) (l ++ r) = applyOp rest r := by
  have hn : n ≤ (l ++ r).length := by simp [List.length_append]; omega
  rw [applyOp_delete_cons _ _ _ hn, List.drop_left' h]

theorem transform_tp1 (a b : Operation) :
    ∀ (s : List Char), wf a = true → wf b = true → baseLen a = baseLen b →
      s.length = baseLen a →
      ∃ p r, transform a b = some p ∧
        (applyOp a s).bind (applyOp p.2) = some r ∧
        (applyOp b s).bind (applyOp p.1) = some r := by
  induction a, b using transform.induct with
  | case1 =>
    intro s _ _ _ hs
    have hnil : s = [] := List.eq_nil_of_length_eq_zero (by simpa [baseLen] using hs)
    subst hnil
    refine ⟨([], []), [], by rw [transform], rfl, rfl⟩
  | case2 t as bs ih =>
    intro s ha hb hlen hs
    simp only [wf, Bool.and_eq_true, bne_iff_ne, ne_eq] at ha
    obtain ⟨p, r, htr, h1, h2⟩ := ih s ha.2 hb (by simpa [baseLen] using hlen)
      (by simpa [baseLen] using hs)
    rcases Option.bind_eq_some.mp h1 with ⟨ra, hra, hfa⟩
    rcases Option.bind_eq_some.mp h2 with ⟨rb, hrb, hfb⟩
    refine ⟨(.insert t :: p.1, .retain t.length :: p.2), t ++ r, ?_, ?_, ?_⟩
    · rw [transform, htr]; rfl
    · rw [applyOp_insert_cons, hra]
      simp only [Option.map_some', Option.some_bind]
      rw [applyOp_retain_append _ _ t ra rfl, hfa]; rfl
    · rw [hrb]
      simp only [Option.some_bind, applyOp_insert_cons, hfb]; rfl
  | case3 as t bs hno ih =>
    intro s ha hb hlen hs
    simp only [wf, Bool.and_eq_true, bne_iff_ne, ne_eq] at hb
    obtain ⟨p, r, htr, h1, h2⟩ := ih s ha hb.2 (by simpa [baseLen] using hlen) hs
    rcases Option.bind_eq_some.mp h1 with ⟨ra, hra, hfa⟩
    rcases Option.bind_eq_some.mp h2 with ⟨rb, hrb, hfb⟩
    have heq : transform as (.insert t :: bs) =
        (transform as bs).map fun p => (.retain t.length :: p.1, .insert t :: p.2) := by
      rcases as with _ | ⟨hd, as'⟩
      · (rw [transform]; simp)
      · rcases hd with i | u | i
        · (rw [transform]; simp)
        · exact (hno u as' rfl).elim
        · (rw [transform]; simp)
    refine ⟨(.retain t.length :: p.1, .insert t :: p.2), t ++ r, ?_, ?_, ?_⟩
    · rw [heq, htr]; rfl
    · rw [hra]
      simp only [Option.some_bind, applyOp_insert_cons, hfa]; rfl
    · rw [applyOp_insert_cons, hrb]
      simp only [Option.map_some', Option.some_bind]
      rw [applyOp_retain_append _ _ t rb rfl, hfb]; rfl
  | case4 i as j bs hij ih =>
    intro s ha hb hlen hs
    simp only [wf, Bool.and_eq_true, bne_iff_ne, ne_eq] at ha hb
    simp only [baseLen] at hlen hs
    have hwfb' : wf (.retain (j - i) :: bs) = true := by
      simp only [wf, Bool.and_eq_true, bne_iff_ne, ne_eq]
      exact ⟨by omega, hb.2⟩
    have hlen' : baseLen as = baseLen (.retain (j - i) :: bs) := by
      simp only [baseLen]; omega
    have hs' : (s.drop i).length = baseLen as := by
      simp only [List.length_drop]; omega
    obtain ⟨p, r, htr, h1, h2⟩ := ih (s.drop i) ha.2 hwfb' hlen' hs'
    rcases Option.bind_eq_some.mp h1 with ⟨ra, hra, hfa⟩
    rcases Option.bind_eq_some.mp h2 with ⟨rb', hrb', hfb⟩
    have hji' : j - i ≤ (s.drop i).length := by simp only [List.length_drop]; omega
    rw [applyOp_retain_cons _ _ _ hji'] at hrb'
    rcases Option.map_eq_some'.mp hrb' with ⟨rb, hrb, hrbeq⟩
    have hdd : (s.drop i).drop (j - i) = s.drop j := by
      rw [List.drop_drop]; congr 1; omega
    have hdt : (s.take j).drop i = (s.drop i).take (j - i) := List.drop_take j i s
    rw [hdd] at hrb
    have hile : i ≤ s.length := by omega
    have hjle : j ≤ s.length := by omega
    have htakei : (s.take i).length = i := by simp [List.length_take]; omega
    refine ⟨(.retain i :: p.1, .retain i :: p.2), s.take i ++ r, ?_, ?_, ?_⟩
    · rw [transform]; simp only [if_pos hij, htr]; rfl
    · rw [applyOp_retain_cons _ _ _ hile, hra]
      simp only [Option.map_some', Option.some_bind]
      rw [applyOp_retain_append _ _ _ _ htakei, hfa]; rfl
    · rw [applyOp_retain_cons _ _ _ hjle, hrb]
      simp only [Option.map_some', Option.some_bind]
      have hsplit : s.take j ++ rb = s.take i ++ ((s.take j).drop i ++ rb) := by
        rw [← List.append_assoc]
        congr 1
        conv_lhs => rw [← List.take_append_drop i (s.take j)]
        congr 1
        rw [List.take_take]; congr 1; omega
      rw [hsplit, applyOp_retain_append _ _ _ _ htakei]
      rw [hdt, hrbeq, hfb]; rfl
  | case5 i as j bs hij hji ih =>
    intro s ha hb hlen hs
    simp only [wf, Bool.and_eq_true, bne_iff_ne, ne_eq] at ha hb
    simp only [baseLen] at hlen hs
    have hwfa' : wf (.retain (i - j) :: as) = true := by
      simp only [wf, Bool.and_eq_true, bne_iff_ne, ne_eq]
      exact ⟨by omega, ha.2⟩
    have hlen' : baseLen (.retain (i - j) :: as) = baseLen bs := by
      simp only [baseLen]; omega
    have hs' : (s.drop j).length = baseLen (.retain (i - j) :: as) := by
      simp only [List.length_drop, baseLen]; omega
    obtain ⟨p, r, htr, h1, h2⟩ := ih (s.drop j) hwfa' hb.2 hlen' hs'
    rcases Option.bind_eq_some.mp h1 with ⟨ra', hra', hfa⟩
    rcases Option.bind_eq_some.mp h2 with ⟨rb, hrb, hfb⟩
    have hij' : i - j ≤ (s.drop j).length := by simp only [List.length_drop]; omega
    rw [applyOp_retain_cons _ _ _ hij'] at hra'
    rcases Option.map_eq_some'.mp hra' with ⟨ra, hra, hraeq⟩
    have hdd : (s.drop j).drop (i - j) = s.drop i := by
      rw [List.drop_drop]; congr 1; omega
    have hdt : (s.take i).drop j = (s.drop j).take (i - j) := List.drop_take i j s
    rw [hdd] at hra
    have hile : i ≤ s.length := by omega
    have hjle : j ≤ s.length := by omega
    have htakej : (s.take j).length = j := by simp [List.length_take]; omega
    refine ⟨(.retain j :: p.1, .retain j :: p.2), s.take j ++ r, ?_, ?_, ?_⟩
    · rw [transform]; simp only [if_neg hij, if_pos hji, htr]; rfl
    · rw [applyOp_retain_cons _ _ _ hile, hra]
      simp only [Option.map_some', Option.some_bind]
      have hsplit : s.take i ++ ra = s.take j ++ ((s.take i).drop j ++ ra) := by
        rw [← List.append_assoc]
        congr 1
        conv_lhs => rw [← List.take_append_drop j (s.take i)]
        congr 1
        rw [List.take_take]; congr 1; omega
      rw [hsplit, applyOp_retain_append _ _ _ _ htakej]
      rw [hdt, hraeq, hfa]; rfl
    · rw [applyOp_retain_cons _ _ _ hjle, hrb]
      simp only [Option.map_some', Option.some_bind]
      rw [applyOp_retain_append _ _ _ _ htakej, hfb]; rfl
  | case6 i as j bs hij hji ih =>
    intro s ha hb hlen hs
    have heq2 : i = j := by omega
    subst heq2
    simp only [wf, Bool.and_eq_true, bne_iff_ne, ne_eq] at ha hb
    simp only [baseLen] at hlen hs
    have hs' : (s.drop i).length = baseLen as := by
      simp only [List.length_drop]; omega
    obtain ⟨p, r, htr, h1, h2⟩ := ih (s.drop i) ha.2 hb.2 (by omega) hs'
    rcases Option.bind_eq_some.mp h1 with ⟨ra, hra, hfa⟩
    rcases Option.bind_eq_some.mp h2 with ⟨rb, hrb, hfb⟩
    have hile : i ≤ s.length := by omega
    have htakei : (s.take i).length = i := by simp [List.length_take]; omega
    refine ⟨(.retain i :: p.1, .retain i :: p.2), s.take i ++ r, ?_, ?_, ?_⟩
    · rw [transform]; simp only [if_neg hij, if_neg hji, htr]; rfl
    · rw [applyOp_retain_cons _ _ _ hile, hra]
      simp only [Option.map_some', Option.some_bind]
      rw [applyOp_retain_append _ _ _ _ htakei, hfa]; rfl
    · rw [applyOp_retain_cons _ _ _ hile, hrb]
      simp only [Option.map_some', Option.some_bind]
      rw [applyOp_retain_append _ _ _ _ htakei, hfb]; rfl
  | case7 i as j bs hij ih =>
    intro s ha hb hlen hs
    simp only [wf, Bool.and_eq_true, bne_iff_ne, ne_eq] at ha hb
    simp only [baseLen] at hlen hs
    have hwfb' : wf (.delete (j - i) :: bs) = true := by
      simp only [wf, Bool.and_eq_true, bne_iff_ne, ne_eq]
      exact ⟨by omega, hb.2⟩
    have hlen' : baseLen as = baseLen (.delete (j - i) :: bs) := by
      simp only [baseLen]; omega
    have hs' : (s.drop i).length = baseLen as := by
      simp only [List.length_drop]; omega
    obtain ⟨p, r, htr, h1, h2⟩ := ih (s.drop i) ha.2 hwfb' hlen' hs'
    rcases Option.bind_eq_some.mp h1 with ⟨ra, hra, hfa⟩
    rcases Option.bind_eq_some.mp h2 with ⟨rb, hrb, hfb⟩
    have hji' : j - i ≤ (s.drop i).length := by simp only [List.length_drop]; omega
    rw [applyOp_delete_cons _ _ _ hji'] at hrb
    have hdd : (s.drop i).drop (j - i) = s.drop j := by
      rw [List.drop_drop]; congr 1; omega
    rw [hdd] at hrb
    have hile : i ≤ s.length := by omega
    have hjle : j ≤ s.length := by omega
    refine ⟨p, r, ?_, ?_, ?_⟩
    · rw [transform]; simp only [if_pos hij, htr]
    · rw [applyOp_delete_cons _ _ _ hile, hra]
      simp only [Option.some_bind]; exact hfa
    · rw [applyOp_delete_cons _ _ _ hjle, hrb]
      simp only [Option.some_bind]; exact hfb
  | case8 i as j bs hij hji ih =>
    intro s ha hb hlen hs
    simp only [wf, Bool.and_eq_true, bne_iff_ne, ne_eq] at ha hb
    simp only [baseLen] at hlen hs
    have hwfa' : wf (.delete (i - j) :: as) = true := by
      simp only [wf, Bool.and_eq_true, bne_iff_ne, ne_eq]
      exact ⟨by omega, ha.2⟩
    have hlen' : baseLen (.delete (i - j) :: as) = baseLen bs := by
      simp only [baseLen]; omega
    have hs' : (s.drop j).length = baseLen (.delete (i - j) :: as) := by
      simp only [List.length_drop, baseLen]; omega
    obtain ⟨p, r, htr, h1, h2⟩ := ih (s.drop j) hwfa' hb.2 hlen' hs'
    rcases Option.bind_eq_some.mp h1 with ⟨ra, hra, hfa⟩
    rcases Option.bind_eq_some.mp h2 with ⟨rb, hrb, hfb⟩
    have hij' : i - j ≤ (s.drop j).length := by simp only [List.length_drop]; omega
    rw [applyOp_delete_cons _ _ _ hij'] at hra
    have hdd : (s.drop j).drop (i - j) = s.drop i := by
      rw [List.drop_drop]; congr 1; omega
    rw [hdd] at hra
    have hile : i ≤ s.length := by omega
    have hjle : j ≤ s.length := by omega
    refine ⟨p, r, ?_, ?_, ?_⟩
    · rw [transform]; simp only [if_neg hij, if_pos hji, htr]
    · rw [applyOp_delete_cons _ _ _ hile, hra]
      simp only [Option.some_bind]; exact hfa
    · rw [applyOp_delete_cons _ _ _ hjle, hrb]
      simp only [Option.some_bind]; exact hfb
  | case9 i as j bs hij hji ih =>
    intro s ha hb hlen hs
    have heq2 : i = j := by omega
    subst heq2
    simp only [wf, Bool.and_eq_true, bne_iff_ne, ne_eq] at ha hb
    simp only [baseLen] at hlen hs
    have hs' : (s.drop i).length = baseLen as := by
      simp only [List.length_drop]; omega
    obtain ⟨p, r, htr, h1, h2⟩ := ih (s.drop i) ha.2 hb.2 (by omega) hs'
    rcases Option.bind_eq_some.mp h1 with ⟨ra, hra, hfa⟩
    rcases Option.bind_eq_some.mp h2 with ⟨rb, hrb, hfb⟩
    have hile : i ≤ s.length := by omega
    refine ⟨p, r, ?_, ?_, ?_⟩
    · rw [transform]; simp only [if_neg hij, htr]
    · rw [applyOp_delete_cons _ _ _ hile, hra]
      simp only [Option.some_bind]; exact hfa
    · rw [applyOp_delete_cons _ _ _ hile, hrb]
      simp only [Option.some_bind]; exact hfb
  | case10 i as j bs hij ih =>
    intro s ha hb hlen hs
    simp only [wf, Bool.and_eq_true, bne_iff_ne, ne_eq] at ha hb
    simp only [baseLen] at hlen hs
    have hwfb' : wf (.retain (j - i) :: bs) = true := by
      simp only [wf, Bool.and_eq_true, bne_iff_ne, ne_eq]
      exact ⟨by omega, hb.2⟩
    have hlen' : baseLen as = baseLen (.retain (j - i) :: bs) := by
      simp only [baseLen]; omega
    have hs' : (s.drop i).length = baseLen as := by
      simp only [List.length_drop]; omega
    obtain ⟨p, r, htr, h1, h2⟩ := ih (s.drop i) ha.2 hwfb' hlen' hs'
    rcases Option.bind_eq_some.mp h1 with ⟨ra, hra, hfa⟩
    rcases Option.bind_eq_some.mp h2 with ⟨rb', hrb', hfb⟩
    have hji' : j - i ≤ (s.drop i).length := by simp only [List.length_drop]; omega
    rw [applyOp_retain_cons _ _ _ hji'] at hrb'
    rcases Option.map_eq_some'.mp hrb' with ⟨rb, hrb, hrbeq⟩
    have hdd : (s.drop i).drop (j - i) = s.drop j := by
      rw [List.drop_drop]; congr 1; omega
    have hdt : (s.take j).drop i = (s.drop i).take (j - i) := List.drop_take j i s
    rw [hdd] at hrb
    have hile : i ≤ s.length := by omega
    have hjle : j ≤ s.length := by omega
    have htakei : (s.take i).length = i := by simp [List.length_take]; omega
    refine ⟨(.delete i :: p.1, p.2), r, ?_, ?_, ?_⟩
    · rw [transform]; simp only [if_pos hij, htr]; rfl
    · rw [applyOp_delete_cons _ _ _ hile, hra]
      simp only [Option.some_bind]; exact hfa
    · rw [applyOp_retain_cons _ _ _ hjle, hrb]
      simp only [Option.map_some', Option.some_bind]
      have hsplit : s.take j ++ rb = s.take i ++ ((s.take j).drop i ++ rb) := by
        rw [← List.append_assoc]
        congr 1
        conv_lhs => rw [← List.take_append_drop i (s.take j)]
        congr 1
        rw [List.take_take]; congr 1; omega
      rw [hsplit, applyOp_delete_append _ _ _ _ htakei]
      rw [hdt, hrbeq]; exact hfb
  | case11 i as j bs hij hji ih =>
    intro s ha hb hlen hs
    simp only [wf, Bool.and_eq_true, bne_iff_ne, ne_eq] at ha hb
    simp only [baseLen] at hlen hs
    have hwfa' : wf (.delete (i - j) :: as) = true := by
      simp only [wf, Bool.and_eq_true, bne_iff_ne, ne_eq]
      exact ⟨by omega, ha.2⟩
    have hlen' : baseLen (.delete (i - j) :: as) = baseLen bs := by
      simp only [baseLen]; omega
    have hs' : (s.drop j).length = baseLen (.delete (i - j) :: as) := by
      simp only [List.length_drop, baseLen]; omega
    obtain ⟨p, r, htr, h1, h2⟩ := ih (s.drop j) hwfa' hb.2 hlen' hs'
    rcases Option.bind_eq_some.mp h1 with ⟨ra, hra, hfa⟩
    rcases Option.bind_eq_some.mp h2 with ⟨rb, hrb, hfb⟩
    have hij' : i - j ≤ (s.drop j).length := by simp only [List.length_drop]; omega
    rw [applyOp_delete_cons _ _ _ hij'] at hra
    have hdd : (s.drop j).drop (i - j) = s.drop i := by
      rw [List.drop_drop]; congr 1; omega
    rw [hdd] at hra
    have hile : i ≤ s.length := by omega
    have hjle : j ≤ s.length := by omega
    have htakej : (s.take j).length = j := by simp [List.length_take]; omega
    refine ⟨(.delete j :: p.1, p.2), r, ?_, ?_, ?_⟩
    · rw [transform]; simp only [if_neg hij, if_pos hji, htr]; rfl
    · rw [applyOp_delete_cons _ _ _ hile, hra]
      simp only [Option.some_bind]; exact hfa
    · rw [applyOp_retain_cons _ _ _ hjle, hrb]
      simp only [Option.map_some', Option.some_bind]
      rw [applyOp_delete_append _ _ _ _ htakej]
      exact hfb
  | case12 i as j bs hij hji ih =>
    intro s ha hb hlen hs
    have heq2 : i = j := by omega
    subst heq2
    simp only [wf, Bool.and_eq_true, bne_iff_ne, ne_eq] at ha hb
    simp only [baseLen] at hlen hs
    have hs' : (s.drop i).length = baseLen as := by
      simp only [List.length_drop]; omega
    obtain ⟨p, r, htr, h1, h2⟩ := ih (s.drop i) ha.2 hb.2 (by omega) hs'
    rcases Option.bind_eq_some.mp h1 with ⟨ra, hra, hfa⟩
    rcases Option.bind_eq_some.mp h2 with ⟨rb, hrb, hfb⟩
    have hile : i ≤ s.length := by omega
    have htakei : (s.take i).length = i := by simp [List.length_take]; omega
    refine ⟨(.delete i :: p.1, p.2), r, ?_, ?_, ?_⟩
    · rw [transform]; simp only [if_neg hij, htr]; rfl
    · rw [applyOp_delete_cons _ _ _ hile, hra]
      simp only [Option.some_bind]; exact hfa
    · rw [applyOp_retain_cons _ _ _ hile, hrb]
      simp only [Option.map_some', Option.some_bind]
      rw [applyOp_delete_append _ _ _ _ htakei]
      exact hfb
  | case13 i as j bs hij ih =>
    intro s ha hb hlen hs
    simp only [wf, Bool.and_eq_true, bne_iff_ne, ne_eq] at ha hb
    simp only [baseLen] at hlen hs
    have hwfb' : wf (.delete (j - i) :: bs) = true := by
      simp only [wf, Bool.and_eq_true, bne_iff_ne, ne_eq]
      exact ⟨by omega, hb.2⟩
    have hlen' : baseLen as = baseLen (.delete (j - i) :: bs) := by
      simp only [baseLen]; omega
    have hs' : (s.drop i).length = baseLen as := by
      simp only [List.length_drop]; omega
    obtain ⟨p, r, htr, h1, h2⟩ := ih (s.drop i) ha.2 hwfb' hlen' hs'
    rcases Option.bind_eq_some.mp h1 with ⟨ra, hra, hfa⟩
    rcases Option.bind_eq_some.mp h2 with ⟨rb, hrb, hfb⟩
    have hji' : j - i ≤ (s.drop i).length := by simp only [List.length_drop]; omega
    rw [applyOp_delete_cons _ _ _ hji'] at hrb
    have hdd : (s.drop i).drop (j - i) = s.drop j := by
      rw [List.drop_drop]; congr 1; omega
    rw [hdd] at hrb
    have hile : i ≤ s.length := by omega
    have hjle : j ≤ s.length := by omega
    have htakei : (s.take i).length = i := by simp [List.length_take]; omega
    refine ⟨(p.1, .delete i :: p.2), r, ?_, ?_, ?_⟩
    · rw [transform]; simp only [if_pos hij, htr]; rfl
    · rw [applyOp_retain_cons _ _ _ hile, hra]
      simp only [Option.map_some', Option.some_bind]
      rw [applyOp_delete_append _ _ _ _ htakei]
      exact hfa
    · rw [applyOp_delete_cons _ _ _ hjle, hrb]
      simp only [Option.some_bind]; exact hfb
  | case14 i as j bs hij hji ih =>
    intro s ha hb hlen hs
    simp only [wf, Bool.and_eq_true, bne_iff_ne, ne_eq] at ha hb
    simp only [baseLen] at hlen hs
    have hwfa' : wf (.retain (i - j) :: as) = true := by
      simp only [wf, Bool.and_eq_true, bne_iff_ne, ne_eq]
      exact ⟨by omega, ha.2⟩
    have hlen' : baseLen (.retain (i - j) :: as) = baseLen bs := by
      simp only [baseLen]; omega
    have hs' : (s.drop j).length = baseLen (.retain (i - j) :: as) := by
      simp only [List.length_drop, baseLen]; omega
    obtain ⟨p, r, htr, h1, h2⟩ := ih (s.drop j) hwfa' hb.2 hlen' hs'
    rcases Option.bind_eq_some.mp h1 with ⟨ra', hra', hfa⟩
    rcases Option.bind_eq_some.mp h2 with ⟨rb, hrb, hfb⟩
    have hij' : i - j ≤ (s.drop j).length := by simp only [List.length_drop]; omega
    rw [applyOp_retain_cons _ _ _ hij'] at hra'
    rcases Option.map_eq_some'.mp hra' with ⟨ra, hra, hraeq⟩
    have hdd : (s.drop j).drop (i - j) = s.drop i := by
      rw [List.drop_drop]; congr 1; omega
    have hdt : (s.take i).drop j = (s.drop j).take (i - j) := List.drop_take i j s
    rw [hdd] at hra
    have hile : i ≤ s.length := by omega
    have hjle : j ≤ s.length := by omega
    have htakej : (s.take j).length = j := by simp [List.length_take]; omega
    refine ⟨(p.1, .delete j :: p.2), r, ?_, ?_, ?_⟩
    · rw [transform]; simp only [if_neg hij, if_pos hji, htr]; rfl
    · rw [applyOp_retain_cons _ _ _ hile, hra]
      simp only [Option.map_some', Option.some_bind]
      have hsplit : s.take i ++ ra = s.take j ++ ((s.take i).drop j ++ ra) := by
        rw [← List.append_assoc]
        congr 1
        conv_lhs => rw [← List.take_append_drop j (s.take i)]
        congr 1
        rw [List.take_take]; congr 1; omega
      rw [hsplit, applyOp_delete_append _ _ _ _ htakej]
      rw [hdt, hraeq]; exact hfa
    · rw [applyOp_delete_cons _ _ _ hjle, hrb]
      simp only [Option.some_bind]; exact hfb
  | case15 i as j bs hij hji ih =>
    intro s ha hb hlen hs
    have heq2 : i = j := by omega
    subst heq2
    simp only [wf, Bool.and_eq_true, bne_iff_ne, ne_eq] at ha hb
    simp only [baseLen] at hlen hs
    have hs' : (s.drop i).length = baseLen as := by
      simp only [List.length_drop]; omega
    obtain ⟨p, r, htr, h1, h2⟩ := ih (s.drop i) ha.2 hb.2 (by omega) hs'
    rcases Option.bind_eq_some.mp h1 with ⟨ra, hra, hfa⟩
    rcases Option.bind_eq_some.mp h2 with ⟨rb, hrb, hfb⟩
    have hile : i ≤ s.length := by omega
    have htakei : (s.take i).length = i := by simp [List.length_take]; omega
    refine ⟨(p.1, .delete i :: p.2), r, ?_, ?_, ?_⟩
    · rw [transform]; simp only [if_neg hij, htr]; rfl
    · rw [applyOp_retain_cons _ _ _ hile, hra]
      simp only [Option.map_some', Option.some_bind]
      rw [applyOp_delete_append _ _ _ _ htakei]
      exact hfa
    · rw [applyOp_delete_cons _ _ _ hile, hrb]
      simp only [Option.some_bind]; exact hfb
  | case16 hd tl hno =>
    intro s ha hb hlen hs
    rcases hd with i | u | i
    · simp only [wf, Bool.and_eq_true, bne_iff_ne, ne_eq] at ha
      simp only [baseLen] at hlen
      exfalso; omega
    · exact (hno u rfl).elim
    · simp only [wf, Bool.and_eq_true, bne_iff_ne, ne_eq] at ha
      simp only [baseLen] at hlen
      exfalso; omega
  | case17 hd tl hno =>
    intro s ha hb hlen hs
    rcases hd with i | u | i
    · simp only [wf, Bool.and_eq_true, bne_iff_ne, ne_eq] at hb
      simp only [baseLen] at hlen
      exfalso; omega
    · exact (hno u rfl).elim
    · simp only [wf, Bool.and_eq_true, bne_iff_ne, ne_eq] at hb
      simp only [baseLen] at hlen
      exfalso; omega
end Ot
namespace Server

theorem nodup_key_eq {l : List (String × Document)}
    (h : (l.map Prod.fst).Nodup) {a b : String × Document}
    (ha : a ∈ l) (hb : b ∈ l) (hab : a.1 = b.1) : a = b := by
  induction l with
  | nil => cases ha
  | cons x t ih =>
    simp only [List.map_cons, List.nodup_cons, List.mem_map] at h
    rcases List.mem_cons.mp ha with ha' | ha' <;>
      rcases List.mem_cons.mp hb with hb' | hb'
    · rw [ha', hb']
    · exact absurd ⟨b, hb', by rw [← hab, ha']⟩ h.1
    · exact absurd ⟨a, ha', by rw [hab, hb']⟩ h.1
    · exact ih h.2 ha' hb'

theorem mem_foldl_remove_fst (keys : List String) :
    ∀ (d0 : List (String × Document)) (k0 : List Rustpad) (e : String × Document),
      e ∈ (keys.foldl remove_fold (d0, k0)).1 ↔ e ∈ d0 ∧ e.1 ∉ keys := by
  induction keys with
  | nil => intro d0 k0 e; simp
  | cons k ks ih =>
    intro d0 k0 e
    simp only [List.foldl_cons]
    rw [ih]
    simp only [remove_fold, remove_document, List.mem_filter, bne_iff_ne, ne_eq,
      List.mem_cons, not_or]
    tauto

theorem mem_foldl_remove_killed_mono (keys : List String) :
    ∀ (acc : List (String × Document) × List Rustpad) (x : Rustpad),
      x ∈ acc.2 → x ∈ (keys.foldl remove_fold acc).2 := by
  induction keys with
  | nil => intro acc x hx; simpa using hx
  | cons k ks ih =>
    intro acc x hx
    simp only [List.foldl_cons]
    exact ih _ x (by simp only [remove_fold]; exact List.mem_append_left _ hx)

theorem mem_foldl_remove_killed (keys : List String) :
    ∀ (d0 : List (String × Document)) (k0 : List Rustpad) (e : String × Document),
      e ∈ d0 → e.1 ∈ keys →
      e.2.rustpad.kill ∈ (keys.foldl remove_fold (d0, k0)).2 := by
  induction keys with
  | nil => intro d0 k0 e _ h; simp at h
  | cons k ks ih =>
    intro d0 k0 e he hk
    simp only [List.foldl_cons]
    by_cases hek : e.1 = k
    · apply mem_foldl_remove_killed_mono
      simp only [remove_fold, remove_document, List.mem_append]
      right
      exact List.mem_map.mpr ⟨e, List.mem_filter.mpr ⟨he, by simp [hek]⟩, rfl⟩
    · have hks : e.1 ∈ ks := by
        rcases List.mem_cons.mp hk with h | h
        · exact absurd h hek
        · exact h
      exact ih _ _ e (by
        simp only [remove_fold, remove_document, List.mem_filter, bne_iff_ne, ne_eq]
        exact ⟨he, by simpa using hek⟩) hks

end Server

namespace Server

/-- Claim C2: registry open is an upsert.  When an entry for `id` exists,
`socket_handler` refreshes its `last_accessed` to the current instant and
returns the stored engine without replacing it, spawning nothing; when no
entry exists, it inserts a fresh engine under `id` (seeded from the
database snapshot when persistence is enabled and a snapshot exists,
default-empty otherwise) and spawns the background snapshot publisher iff
persistence is enabled. -/
theorem socket_handler_upsert (st : ServerState) (id : String) (now : Nat) :
    (∀ doc, find_document st.documents id = some doc →
      (socket_handler st id now).handle = doc.rustpad ∧
      (socket_handler st id now).documents =
        st.documents.map (fun e =>
          if e.1 == id then (e.1, { last_accessed := now, rustpad := doc.rustpad }) else e) ∧
      (socket_handler st id now).persister_spawned = false) ∧
    (find_document st.documents id = none →
      ∃ engine,
        (socket_handler st id now).handle = engine ∧
        (socket_handler st id now).documents =
          st.documents ++ [(id, { last_accessed := now, rustpad := engine })] ∧
        ((socket_handler st id now).persister_spawned = true ↔ st.database.isSome = true) ∧
        (st.database = none → engine = Rustpad.init) ∧
        (∀ db, st.database = some db →
          engine = ((db.load id).map Rustpad.fromPersisted).getD Rustpad.init)) := by
  constructor
  · intro doc hdoc
    simp [socket_handler, hdoc]
  · intro hnone
    simp only [socket_handler, hnone]
    refine ⟨_, rfl, rfl, by simp, ?_, ?_⟩
    · intro hdb; simp [hdb]
    · intro db hdb
      simp only [hdb]
      cases hload : db.load id <;> simp [hload]

/-- Claim C3: idle eviction condition.  On a cleaner tick an entry is
removed from the map iff, at scan time, the elapsed time since its
`last_accessed` exceeds `expiry_days` days; every entry accessed within
that window survives the tick. -/
theorem cleaner_tick_eviction (docs : List (String × Document))
    (now expiry_days : Nat) (hkeys : (docs.map Prod.fst).Nodup)
    (e : String × Document) :
    e ∈ (cleaner_tick docs now expiry_days).1 ↔
      e ∈ docs ∧ ¬ (now - e.2.last_accessed > HOUR * 24 * expiry_days) := by
  unfold cleaner_tick
  rw [mem_foldl_remove_fst]
  constructor
  · rintro ⟨he, hnk⟩
    refine ⟨he, fun hexp => hnk ?_⟩
    exact List.mem_map.mpr ⟨e, List.mem_filter.mpr ⟨he, by simpa using hexp⟩, rfl⟩
  · rintro ⟨he, hnexp⟩
    refine ⟨he, fun hk => ?_⟩
    rcases List.mem_map.mp hk with ⟨f, hf, hfe⟩
    rcases List.mem_filter.mp hf with ⟨hfd, hfexp⟩
    have hfeq : f = e := nodup_key_eq hkeys hfd he hfe
    subst hfeq
    exact hnexp (by simpa using hfexp)

/-- Claim C4: every entry removed from the registry map, whether by a
plain `DashMap::remove` or by the idle-eviction cleaner, has `kill()`
invoked on its engine by `Document`'s `Drop` impl: the killed engine
appears among the removal's drop effects. -/
theorem remove_document_kills :
    (∀ (docs : List (String × Document)) (key : String) (e : String × Document),
      e ∈ docs → e ∉ (remove_document docs key).1 →
      e.2.rustpad.kill ∈ (remove_document docs key).2) ∧
    (∀ (docs : List (String × Document)) (now expiry_days : Nat)
      (e : String × Document),
      e ∈ docs → e ∉ (cleaner_tick docs now expiry_days).1 →
      e.2.rustpad.kill ∈ (cleaner_tick docs now expiry_days).2) := by
  constructor
  · intro docs key e he hne
    simp only [remove_document, List.mem_filter, bne_iff_ne, ne_eq, not_and,
      Decidable.not_not] at hne
    have hkey : e.1 = key := by simpa using hne he
    exact List.mem_map.mpr ⟨e, List.mem_filter.mpr ⟨he, by simp [hkey]⟩, rfl⟩
  · intro docs now expiry_days e he hne
    unfold cleaner_tick at hne ⊢
    rw [mem_foldl_remove_fst] at hne
    have hk : e.1 ∈ (docs.filter
        (fun e => now - e.2.last_accessed > HOUR * 24 * expiry_days)).map (fun e => e.1) := by
      by_contra hnk
      exact hne ⟨he, hnk⟩
    exact mem_foldl_remove_killed _ _ _ _ he hk

/-- Claim C5: persistence errors are retried and never reach clients.  On
a failed store the `last_revision` marker is unchanged, the error is only
logged, and the loop body emits nothing towards any session or client; the
marker moves, and then to the sampled revision, only on a successful
store. -/
theorem persister_error_isolated :
    (∀ (last rev : Nat) (e : String),
      (persister_step last ⟨rev, .error e⟩).last_revision = last ∧
      (persister_step last ⟨rev, .error e⟩).client_messages = [] ∧
      (last < rev → (persister_step last ⟨rev, .error e⟩).logged_errors = [e])) ∧
    (∀ (last : Nat) (s : PersistSample),
      (persister_step last s).client_messages = []) ∧
    (∀ (last : Nat) (s : PersistSample),
      (persister_step last s).last_revision ≠ last →
      s.store_result = .ok () ∧ (persister_step last s).last_revision = s.revision) := by
  refine ⟨?_, ?_, ?_⟩
  · intro last rev e
    by_cases h : last < rev <;> simp [persister_step, h]
  · intro last s
    rcases s with ⟨rev, res⟩
    rcases res with e | u <;> by_cases h : last < rev <;> simp [persister_step, h]
  · intro last s hne
    rcases s with ⟨rev, res⟩
    rcases res with e | u
    · by_cases h : last < rev <;> simp [persister_step, h] at hne
    · cases u
      by_cases h : last < rev <;> simp [persister_step, h] at hne ⊢

/-- Claim C8: snapshot-publisher monotonicity.  Across every loop
iteration the `last_revision` marker never decreases, and a store call is
issued in an iteration iff the sampled revision strictly exceeds the
marker. -/
theorem persister_monotone :
    (∀ (last : Nat) (s : PersistSample),
      last ≤ (persister_step last s).last_revision ∧
      ((persister_step last s).store_attempted = true ↔ last < s.revision)) ∧
    (∀ (last : Nat) (samples : List PersistSample),
      last ≤ persister_run last samples) := by
  have hstep : ∀ (last : Nat) (s : PersistSample),
      last ≤ (persister_step last s).last_revision ∧
      ((persister_step last s).store_attempted = true ↔ last < s.revision) := by
    intro last s
    rcases s with ⟨rev, res⟩
    rcases res with e | u <;> by_cases h : last < rev <;>
      (simp [persister_step, h]; try omega)
  refine ⟨hstep, ?_⟩
  intro last samples
  induction samples generalizing last with
  | nil => simp [persister_run]
  | cons s t ih =>
    have h1 : last ≤ (persister_step last s).last_revision := (hstep last s).1
    have h2 : (persister_step last s).last_revision ≤
        persister_run (persister_step last s).last_revision t := ih _
    have : persister_run last (s :: t) =
        persister_run (persister_step last s).last_revision t := by
      simp [persister_run]
    omega

/-- Claim C6: `GET /text/id` always succeeds and returns the text the
specification describes: the live engine's text when an entry exists, the
persisted snapshot's text when persistence is enabled and a snapshot
exists, and the empty string otherwise. -/
theorem text_handler_total (st : ServerState) (id : String) :
    text_handler st id = .ok (text_spec st id) := by
  unfold text_handler text_spec
  cases hfd : find_document st.documents id
  · cases hdb : st.database
    · rfl
    · rename_i db
      cases hload : db.load id <;> simp [hload]
  · rfl

/-- Claim C7: `GET /stats` returns a `Stats` value whose fields are
exactly the server start time, the current number of registry entries, and
the database `count()` result when persistence is enabled or `0` when it
is disabled. -/
theorem stats_handler_fields (start_time : Nat) (st : ServerState) :
    (st.database = none →
      stats_handler start_time st =
        .ok { start_time := start_time
              num_documents := st.documents.length
              database_size := 0 }) ∧
    (∀ db n, st.database = some db → db.count = .ok n →
      stats_handler start_time st =
        .ok { start_time := start_time
              num_documents := st.documents.length
              database_size := n }) := by
  constructor
  · intro h; simp [stats_handler, h]
  · intro db n hdb hc; simp [stats_handler, hdb, hc]

end Server

namespace Ot

/-- Witness for claim C1 at the concurrent-insert scenario of spec section
8 (S2): both clients insert at position 1 of the two-scalar string "AC",
and the two application orders agree. -/
theorem transform_tp1_witness :
    wf [.retain 1, .insert ['B'], .retain 1] = true ∧
    wf [.retain 1, .insert ['X'], .retain 1] = true ∧
    baseLen [.retain 1, .insert ['B'], .retain 1] =
      baseLen [.retain 1, .insert ['X'], .retain 1] ∧
    (['A', 'C'] : List Char).length = baseLen [.retain 1, .insert ['B'], .retain 1] ∧
    (∃ p r,
      transform [.retain 1, .insert ['B'], .retain 1]
          [.retain 1, .insert ['X'], .retain 1] = some p ∧
      (applyOp [.retain 1, .insert ['B'], .retain 1] ['A', 'C']).bind (applyOp p.2) =
        some r ∧
      (applyOp [.retain 1, .insert ['X'], .retain 1] ['A', 'C']).bind (applyOp p.1) =
        some r) :=
  ⟨by decide, by decide, by decide, by decide,
    transform_tp1 [.retain 1, .insert ['B'], .retain 1]
      [.retain 1, .insert ['X'], .retain 1] ['A', 'C']
      (by decide) (by decide) (by decide) (by decide)⟩

end Ot

namespace Server

/-- Witness for claim C2: opening an existing entry returns the stored
engine and spawns no persister. -/
theorem socket_handler_upsert_witness :
    (socket_handler ⟨[("doc", ⟨0, Rustpad.init⟩)], none⟩ "doc" 5).handle =
      Rustpad.init ∧
    (socket_handler ⟨[("doc", ⟨0, Rustpad.init⟩)], none⟩ "doc" 5).documents =
      [("doc", ⟨5, Rustpad.init⟩)] ∧
    (socket_handler ⟨[("doc", ⟨0, Rustpad.init⟩)], none⟩ "doc" 5).persister_spawned =
      false := by
  have h := (socket_handler_upsert ⟨[("doc", ⟨0, Rustpad.init⟩)], none⟩ "doc" 5).1
    ⟨0, Rustpad.init⟩ (by rfl)
  exact ⟨h.1, by rw [h.2.1]; rfl, h.2.2⟩

/-- Witness for claim C3: an entry idle for more than a day is evicted by
the tick, shown through the eviction characterization. -/
theorem cleaner_tick_eviction_witness :
    ¬ (("a", (⟨0, Rustpad.init⟩ : Document)) ∈
        (cleaner_tick [("a", ⟨0, Rustpad.init⟩)] 1000000 1).1) := by
  intro hmem
  have h := (cleaner_tick_eviction [("a", ⟨0, Rustpad.init⟩)] 1000000 1
    (by decide) ("a", ⟨0, Rustpad.init⟩)).mp hmem
  exact h.2 (by decide)

/-- Witness for claim C4: removing the only entry of a singleton map kills
its engine. -/
theorem remove_document_kills_witness :
    Rustpad.init.kill ∈ (remove_document [("a", ⟨0, Rustpad.init⟩)] "a").2 :=
  remove_document_kills.1 [("a", ⟨0, Rustpad.init⟩)] "a" ("a", ⟨0, Rustpad.init⟩)
    (by decide) (by decide)

/-- Witness for claim C5: a failed store at sampled revision 5 with marker
0 leaves the marker at 0, logs the error, and sends nothing to clients. -/
theorem persister_error_isolated_witness :
    (persister_step 0 ⟨5, .error "disk full"⟩).last_revision = 0 ∧
    (persister_step 0 ⟨5, .error "disk full"⟩).client_messages = [] ∧
    (persister_step 0 ⟨5, .error "disk full"⟩).logged_errors = ["disk full"] := by
  have h := persister_error_isolated.1 0 5 "disk full"
  exact ⟨h.1, h.2.1, h.2.2 (by decide)⟩

/-- Witness for claim C7: with persistence enabled and `count()` returning
7, the stats carry the start time, the map size, and 7. -/
theorem stats_handler_fields_witness :
    stats_handler 100 ⟨[("d", ⟨0, Rustpad.init⟩)], some ⟨fun _ => none, .ok 7⟩⟩ =
      .ok { start_time := 100, num_documents := 1, database_size := 7 } :=
  (stats_handler_fields 100 ⟨[("d", ⟨0, Rustpad.init⟩)], some ⟨fun _ => none, .ok 7⟩⟩).2
    ⟨fun _ => none, .ok 7⟩ 7 rfl rfl

end Server

namespace Auth

/-- Counterexample to claim C9 as stated: the password length check in
auth.rs is `password.len() < 6`, and Rust `str::len` counts UTF-8 bytes,
not characters.  The password made of three U+00E9 scalars has 3
characters but 6 bytes, so `register` accepts it although the claim
requires at least 6 characters.  The alphanumeric predicate is
instantiated at `Char.isAlphanum`; it is consulted only at the characters
of the username "abc", where it agrees with Rust's
`char::is_alphanumeric` (the password never passes through it). -/
theorem register_password_bytes_cex :
    ("ééé" : String).length = 3 ∧
    (register ⟨true, [], []⟩ "abc" "ééé" Char.isAlphanum
        (fun s => .ok s) "2026-01-01").1 =
      .ok ⟨"abc", "ééé", "2026-01-01"⟩ :=
  ⟨by decide, by rfl⟩

/-- Claim C9 (amended): `register` returns Ok only when auth is enabled,
the username is at least 3 UTF-8 bytes and consists solely of
alphanumerics (as judged by the code's alphanumeric predicate, over which
this theorem is universally quantified), underscores and hyphens, the
password is at least 6 UTF-8 bytes, and no user with that username
exists; when any of these validations fails it returns an error with the
user files and the cache unchanged. -/
theorem register_validation (st : AuthState) (username password : String)
    (is_alphanumeric : Char → Bool)
    (hashFn : String → Except String String) (now : String) :
    ((∃ user,
        (register st username password is_alphanumeric hashFn now).1 = .ok user) →
      st.enabled = true ∧
      3 ≤ utf8ByteLength username ∧
      (username.data.all fun c => is_alphanumeric c || c == '_' || c == '-') = true ∧
      6 ≤ utf8ByteLength password ∧
      user_exists st username = false) ∧
    ((st.enabled = false ∨ utf8ByteLength username < 3 ∨
      (username.data.all fun c => is_alphanumeric c || c == '_' || c == '-') = false ∨
      utf8ByteLength password < 6 ∨ user_exists st username = true) →
      (∃ e, (register st username password is_alphanumeric hashFn now).1 = .error e) ∧
      (register st username password is_alphanumeric hashFn now).2 = st) := by
  constructor
  · rintro ⟨user, hok⟩
    unfold register at hok
    split at hok
    · simp at hok
    · split at hok
      · simp at hok
      · split at hok
        · simp at hok
        · split at hok
          · simp at hok
          · split at hok
            · simp at hok
            · split at hok
              · simp at hok
              · rw [Except.ok.injEq] at hok
                refine ⟨?_, ?_, ?_, ?_, ?_⟩
                · simp_all
                · simp_all
                · cases hB : username.data.all
                      (fun c => is_alphanumeric c || c == '_' || c == '-') <;> simp_all
                · simp_all
                · simp_all
  · intro hbad
    unfold register
    split
    · exact ⟨⟨_, rfl⟩, rfl⟩
    · split
      · exact ⟨⟨_, rfl⟩, rfl⟩
      · split
        · exact ⟨⟨_, rfl⟩, rfl⟩
        · split
          · exact ⟨⟨_, rfl⟩, rfl⟩
          · split
            · exact ⟨⟨_, rfl⟩, rfl⟩
            · split
              · exact ⟨⟨_, rfl⟩, rfl⟩
              · exfalso
                rcases hbad with h' | h' | h' | h' | h' <;> simp_all

end Auth

namespace Auth

/-- Witness for claim C9 (amended): a successful registration of user
"abc" with password "secret" satisfies every validation.  The
alphanumeric predicate is instantiated at `Char.isAlphanum`, which agrees
with Rust's `char::is_alphanumeric` on the ASCII characters consulted. -/
theorem register_validation_witness :
    (⟨true, [], []⟩ : AuthState).enabled = true ∧
    3 ≤ utf8ByteLength "abc" ∧
    (("abc" : String).data.all fun c => Char.isAlphanum c || c == '_' || c == '-') = true ∧
    6 ≤ utf8ByteLength "secret" ∧
    user_exists ⟨true, [], []⟩ "abc" = false :=
  (register_validation ⟨true, [], []⟩ "abc" "secret" Char.isAlphanum
      (fun s => .ok s) "t").1
    ⟨⟨"abc", "secret", "t"⟩, rfl⟩

end Auth

namespace Freeze

/-- Claim C10: every successfully frozen document's metadata satisfies
`expires_at = frozen_at + 30 days` and `file_size` equals the UTF-8 byte
length of the content, and freezing fails whenever that byte length
exceeds the configured `max_file_size`. -/
theorem freeze_document_metadata (st : FreezeState)
    (document_id username language content : String) (now : Int) :
    (∀ doc,
      (freeze_document st document_id username language content now).1 = .ok doc →
      doc.expires_at = doc.frozen_at + days 30 ∧
      doc.file_size = utf8ByteLength content) ∧
    (utf8ByteLength content > st.config.max_file_size →
      ∃ e, (freeze_document st document_id username language content now).1 = .error e) := by
  constructor
  · intro doc h
    simp only [freeze_document] at h
    split at h
    · simp at h
    · split at h
      · simp at h
      · rw [Except.ok.injEq] at h
        rw [← h]
        exact ⟨rfl, rfl⟩
  · intro hgt
    simp only [freeze_document]
    split
    · exact ⟨"File freeze feature is not enabled", rfl⟩
    · exact ⟨"Document size exceeds maximum", rfl⟩

/-- Witness for claim C10: freezing a two-byte document under a 1000-byte
limit succeeds with the expected expiry and size. -/
theorem freeze_document_metadata_witness :
    ((freeze_document ⟨⟨true, "save", 1000⟩, [], [], []⟩ "d" "u" "rust" "hi" 100).1 =
      .ok ⟨"d", "u", "rust", "rs", 100, 2592100, "save/frozen/u/d.rs", 2⟩) ∧
    (2592100 : Int) = 100 + days 30 ∧
    (2 : Nat) = utf8ByteLength "hi" := by
  have h := (freeze_document_metadata ⟨⟨true, "save", 1000⟩, [], [], []⟩
    "d" "u" "rust" "hi" 100).1
    ⟨"d", "u", "rust", "rs", 100, 2592100, "save/frozen/u/d.rs", 2⟩ (by rfl)
  exact ⟨by rfl, h.1, h.2⟩

end Freeze
